import Mathlib

/-!
Verification development for the study-guide documentation-build scripts
(`scripts/generate_flashcards.py`, `scripts/generate_versions.py`,
`scripts/remove_emojis.py`, `scripts/remove_emojis_programming.py`,
`scripts/rename_flashcards.py`).

Python strings are modelled as `List Char` (a Python `str` is a sequence of
Unicode code points).  Each Python function used by the claims is translated
into an executable Lean definition operating on these lists.
-/

namespace StudyGuide

/-- Conversion from Lean string literals to the `List Char` string model. -/
def str (s : String) : List Char := s.data

/-- The set of characters Python's `str.strip()`, `str.isspace()` and the
regex class `\s` (on `str` patterns) treat as whitespace. -/
def pyIsSpace (c : Char) : Bool :=
  c = ' ' || c = '\t' || c = '\n' || c = '\r' || c = '\x0b' || c = '\x0c' ||
  (0x1c ≤ c.toNat && c.toNat ≤ 0x1f) || c.toNat = 0x85 || c.toNat = 0xa0 ||
  c.toNat = 0x1680 || (0x2000 ≤ c.toNat && c.toNat ≤ 0x200a) ||
  c.toNat = 0x2028 || c.toNat = 0x2029 || c.toNat = 0x202f ||
  c.toNat = 0x205f || c.toNat = 0x3000

/-- Python `s.lstrip()`. -/
def pyLStrip (s : List Char) : List Char := s.dropWhile pyIsSpace

/-- Python `s.rstrip()`. -/
def pyRStrip (s : List Char) : List Char := (s.reverse.dropWhile pyIsSpace).reverse

/-- Python `s.strip()`. -/
def pyStrip (s : List Char) : List Char := pyLStrip (pyRStrip s)

/-- Whether every character of `s` is whitespace. -/
def allWs (s : List Char) : Bool := s.all pyIsSpace

/-- Python `s.split(sep)` for a one-character separator `c`:
`split` on the empty string yields `[""]`, and every separator occurrence
produces one more piece. -/
def splitCh (c : Char) : List Char → List (List Char)
  | [] => [[]]
  | a :: rest =>
    if a = c then [] :: splitCh c rest
    else
      match splitCh c rest with
      | [] => [[a]]
      | h :: t => (a :: h) :: t

/-- Python `sep.join(pieces)` for a one-character separator. -/
def joinCh (c : Char) : List (List Char) → List Char
  | [] => []
  | [l] => l
  | l :: rest => l ++ c :: joinCh c rest

/-- Split `l` at the first occurrence of `pat`:
returns `some (pre, post)` with `l = pre ++ pat ++ post` where `pre` does not
end at or after a `pat` occurrence, or `none` when `pat` does not occur.
This models Python's `str.find` / the literal part of `re.search`. -/
def splitFirst (pat : List Char) : List Char → Option (List Char × List Char)
  | [] => if pat.isEmpty then some ([], []) else none
  | a :: rest =>
    if pat.isPrefixOf (a :: rest) then some ([], (a :: rest).drop pat.length)
    else
      match splitFirst pat rest with
      | none => none
      | some (pre, post) => some (a :: pre, post)

/-- Python `pat in s` (substring test). -/
def occurs (pat s : List Char) : Bool := (splitFirst pat s).isSome

/-! ### `scripts/generate_flashcards.py` -/

/-- The anchor heading `extract_algorithm_content` searches for. -/
def anchorHeading : List Char := str "## Algorithm Problem Identification Guide"

/-- The test `line.startswith("#### **") and "Pattern" in line` from
`extract_algorithm_content`. -/
def rawHeaderTest (line : List Char) : Bool :=
  (str "#### **").isPrefixOf line && occurs (str "Pattern") line

/-- Assignment `d[k] = v` on a Python dict modelled as an insertion-ordered
association list: an existing key keeps its position and gets the new value,
a new key is appended. -/
def dictInsert (k v : List Char) (d : List (List Char × List Char)) :
    List (List Char × List Char) :=
  if d.any (fun e => e.1 = k) then
    d.map (fun e => if e.1 = k then (k, v) else e)
  else d ++ [(k, v)]

/-- `'\n'.join(current_content).strip()`, the body text stored for a section. -/
def finishBody (cc : List (List Char)) : List Char := pyStrip (joinCh '\n' cc)

/-- The line loop of `extract_algorithm_content`: `cs` is `current_section`,
`cc` is `current_content`, `secs` the sections dict built so far (the final
flush of the last section is folded into the `[]` case). -/
def extractLoop : List (List Char) → List Char → List (List Char) →
    List (List Char × List Char) → List (List Char × List Char)
  | [], cs, cc, secs => if cs.isEmpty then secs else dictInsert cs (finishBody cc) secs
  | line :: rest, cs, cc, secs =>
    if rawHeaderTest line then
      extractLoop rest (pyStrip line) []
        (if cs.isEmpty then secs else dictInsert cs (finishBody cc) secs)
    else if cs.isEmpty then extractLoop rest cs cc secs
    else extractLoop rest cs (cc ++ [line]) secs

/-- The lines of `guide_content = content[guide_start:]` (the text from the
first occurrence of the anchor heading on), split on `'\n'`; `[]` when the
anchor heading is absent. -/
def guideLines (content : List Char) : List (List Char) :=
  match splitFirst anchorHeading content with
  | none => []
  | some (_, post) => splitCh '\n' (anchorHeading ++ post)

/-- `extract_algorithm_content` (the file read is abstracted: `content` is the
text of `docs/algo.md`). -/
def extract_algorithm_content (content : List Char) : List (List Char × List Char) :=
  match splitFirst anchorHeading content with
  | none => []
  | some (_, post) => extractLoop (splitCh '\n' (anchorHeading ++ post)) [] [] []

/-- Whether `extract_algorithm_content` prints the
"Guide section not found" warning. -/
def extractWarns (content : List Char) : Bool := (splitFirst anchorHeading content).isNone

/-- A flashcard: a front (prompt) and a back (answer) string. -/
structure Flashcard where
  front : List Char
  back : List Char
deriving DecidableEq

/-- Group 1 of `re.search(r'\*\*Key indicators\*\*:(.*?)(?=\*\*Examples\*\*:|$)',
content, re.DOTALL)`: the text after the first `**Key indicators**:` marker up
to the first following `**Examples**:` marker, or to the end of the string.
(The regex `$` may stop just before a trailing newline; the caller immediately
`strip()`s the capture, which erases that difference.) -/
def indicatorsCapture (content : List Char) : Option (List Char) :=
  match splitFirst (str "**Key indicators**:") content with
  | none => none
  | some (_, post) =>
    match splitFirst (str "**Examples**:") post with
    | none => some post
    | some (pre, _) => some pre

/-- Group 1 of `re.search(r'\*\*Examples\*\*:(.*?)(?=```|$)', content,
re.DOTALL)`, with the same trailing-`$` remark as `indicatorsCapture`. -/
def examplesCapture (content : List Char) : Option (List Char) :=
  match splitFirst (str "**Examples**:") content with
  | none => none
  | some (_, post) =>
    match splitFirst (str "```") post with
    | none => some post
    | some (pre, _) => some pre

/-- `[item.strip() for item in s.split('-') if item.strip()]`. -/
def bulletItems (s : List Char) : List (List Char) :=
  ((splitCh '-' s).map pyStrip).filter (fun x => !x.isEmpty)

/-- `'\n'.join([f"• {item}" for item in items])`. -/
def bulletLines (items : List (List Char)) : List Char :=
  joinCh '\n' (items.map (fun i => str "• " ++ i))

/-- Fuelled scanning loop of `findCodeBlocks` (structural recursion so the
kernel can evaluate it; each step strictly shortens the remainder, so
`l.length + 1` steps always suffice). -/
def findCodeBlocksFuel : Nat → List Char → List (List Char)
  | 0, _ => []
  | fuel + 1, l =>
    match splitFirst (str "```python\n") l with
    | none => []
    | some (_, rest) =>
      match splitFirst (str "\n```") rest with
      | none => []
      | some (code, rest2) => code :: findCodeBlocksFuel fuel rest2

/-- `re.findall(r'```python\n(.*?)\n```', content, re.DOTALL)`: scan left to
right, pairing each `"```python\n"` opener with the first following
`"\n```"` closer, and resume after the closer. -/
def findCodeBlocks (l : List Char) : List (List Char) :=
  findCodeBlocksFuel (l.length + 1) l

/-- Approximation of the regex class `\w`: ASCII letters, digits and
underscore.  (Python's `\w` additionally matches non-ASCII word characters;
no claim depends on those.) -/
def pyIsWordChar (c : Char) : Bool := c.isAlphanum || c = '_'

/-- Fuelled scanning loop of `findDefName` (structural recursion; each step
strictly shortens the remainder, so `l.length + 1` steps always suffice). -/
def findDefNameFuel : Nat → List Char → Option (List Char)
  | 0, _ => none
  | fuel + 1, l =>
    match splitFirst (str "def ") l with
    | none => none
    | some (_, rest) =>
      let w := rest.takeWhile pyIsWordChar
      if w.isEmpty then findDefNameFuel fuel rest else some w

/-- `re.search(r'def (\w+)', code)`, group 1: the word-character run after the
first `"def "` occurrence that is followed by at least one word character
(when the occurrence is followed by no word character, the scan continues;
`"def "` occurrences cannot overlap, so resuming after the occurrence is
the same as resuming one character later as the regex engine does). -/
def findDefName (l : List Char) : Option (List Char) :=
  findDefNameFuel (l.length + 1) l

/-- The static `complexity_info` lookup table of `create_flashcard_content`. -/
def complexityInfo : List (List Char × List Char) := [
  (str "Two Pointers", str "O(n) time, O(1) space"),
  (str "Sliding Window", str "O(n) time, O(k) space"),
  (str "Binary Search", str "O(log n) time, O(1) space"),
  (str "Tree Traversal", str "O(n) time, O(h) space"),
  (str "Graph Traversal", str "O(V + E) time, O(V) space"),
  (str "Dynamic Programming", str "Varies by problem"),
  (str "Heap", str "O(n log k) time, O(k) space"),
  (str "Backtracking", str "O(n!) time, O(n) space")]

/-- `complexity_info.get(pattern_name, "Varies by implementation")`. -/
def complexityAnswer (name : List Char) : List Char :=
  match complexityInfo.find? (fun e => e.1 = name) with
  | some e => e.2
  | none => str "Varies by implementation"

/-- The "Identify the pattern" card(s) of `create_flashcard_content`
(one card when the key-indicators regex matches, none otherwise). -/
def indicatorCards (patternName content : List Char) : List Flashcard :=
  match indicatorsCapture content with
  | none => []
  | some cap =>
    [{ front := str "Identify the algorithm pattern for: " ++ patternName,
       back := str "Key indicators:\n" ++ bulletLines (bulletItems (pyStrip cap)) }]

/-- The "Give examples" card(s) of `create_flashcard_content`. -/
def exampleCards (patternName content : List Char) : List Flashcard :=
  match examplesCapture content with
  | none => []
  | some cap =>
    [{ front := str "Give examples of " ++ patternName ++ str " problems",
       back := str "Common examples:\n" ++ bulletLines (bulletItems (pyStrip cap)) }]

/-- The "Implement" cards of `create_flashcard_content`: at most the first two
code blocks, and only those whose text yields a function name. -/
def implementCards (patternName content : List Char) : List Flashcard :=
  ((findCodeBlocks content).take 2).filterMap fun code =>
    (findDefName code).map fun fname =>
      { front := str "Implement " ++ fname ++ str " using " ++ patternName,
        back := str "```python\n" ++ code ++ str "\n```" }

/-- The front text of the complexity card for a pattern name. -/
def complexityFront (patternName : List Char) : List Char :=
  str "What is the time/space complexity of " ++ patternName ++ str "?"

/-- The unconditional complexity card of `create_flashcard_content`. -/
def complexityCard (patternName : List Char) : Flashcard :=
  { front := complexityFront patternName, back := complexityAnswer patternName }

/-- `create_flashcard_content(pattern_name, section_content)`. -/
def create_flashcard_content (patternName content : List Char) : List Flashcard :=
  indicatorCards patternName content ++ exampleCards patternName content ++
    implementCards patternName content ++ [complexityCard patternName]

/-- Group 1 of `re.search(r'\*\*(.*?)\*\*', section_header)`: the text between
the first `**` marker and the next one. -/
def patternNameOf (header : List Char) : Option (List Char) :=
  match splitFirst (str "**") header with
  | none => none
  | some (_, post) =>
    match splitFirst (str "**") post with
    | none => none
    | some (name, _) => some name

/-- `pattern_name.lower().replace(' ', '-')` (Lean's `Char.toLower` matches
Python's `str.lower` on the ASCII pattern names in use). -/
def lowerHyphen (p : List Char) : List Char :=
  (p.map Char.toLower).map fun c => if c = ' ' then '-' else c

/-- One `ANKI_TEMPLATE.format(...)` instantiation. -/
def ankiTemplate (p : List Char) (n : Nat) (pt f b : List Char) : List Char :=
  str "# Algorithm Flashcards - " ++ p ++ str "\n\n## Card " ++ str (toString n) ++
    str ": " ++ pt ++ str "\n\n**Front:**\n" ++ f ++ str "\n\n**Back:**\n" ++ b ++
    str "\n\n---\n\n"

/-- The per-card inner loop of `generate_flashcard_files`: returns the Anki
parts, the CSV rows, and the next card number. -/
def emitCardList (p : List Char) : List Flashcard → Nat →
    List (List Char) × List (List Char) × Nat
  | [], n => ([], [], n)
  | c :: cs, n =>
    let rest := emitCardList p cs (n + 1)
    (ankiTemplate p n (c.front.take 50 ++ str "...") c.front c.back :: rest.1,
     (str "\"" ++ c.front ++ str "\",\"" ++ c.back ++ str "\"") :: rest.2.1,
     rest.2.2)

/-- The per-section outer loop of `generate_flashcard_files` (sections whose
header yields no `**...**` pattern name are skipped). -/
def emitSections : List (List Char × List Char) → Nat →
    List (List Char) × List (List Char) × Nat
  | [], n => ([], [], n)
  | (header, content) :: rest, n =>
    match patternNameOf header with
    | none => emitSections rest n
    | some p =>
      let cards := emitCardList p (create_flashcard_content p content) n
      let further := emitSections rest cards.2.2
      (cards.1 ++ further.1, cards.2.1 ++ further.2.1, further.2.2)

/-- The body of one per-pattern flashcard file (parts after the two header
lines), numbering cards from `i`. -/
def patternCardParts : List Flashcard → Nat → List (List Char)
  | [], _ => []
  | c :: cs, i =>
    (str "## Card " ++ str (toString i) ++ str "\n") ::
      (str "**Front:** " ++ c.front ++ str "\n") ::
      (str "**Back:** " ++ c.back ++ str "\n\n") :: patternCardParts cs (i + 1)

/-- The full text of one per-pattern flashcard file. -/
def patternFileContent (p content : List Char) : List Char :=
  joinCh '\n' ((str "# " ++ p ++ str " Flashcards\n") ::
    str "Generated for interview preparation\n\n" ::
    patternCardParts (create_flashcard_content p content) 1)

/-- The `(path, text)` pairs written by `generate_flashcard_files`. -/
def generateWrites (sections : List (List Char × List Char)) :
    List (List Char × List Char) :=
  let emitted := emitSections sections 1
  let ankiContent := joinCh '\n' (str "# Algorithm Flashcards - Anki Format\n" ::
    str "Generated for interview preparation\n\n" :: emitted.1)
  let csvContent := joinCh '\n' (str "front,back" :: emitted.2.1)
  [(str "generated/flashcards/algorithm-flashcards-anki.md", ankiContent),
   (str "generated/flashcards/algorithm-flashcards.csv", csvContent)] ++
  sections.filterMap fun s =>
    (patternNameOf s.1).map fun p =>
      (str "generated/flashcards/" ++ lowerHyphen p ++ str "-flashcards.md",
       patternFileContent p s.2)

/-- A flat model of the file-system state the scripts touch: file contents by
path, and the set of existing directories. -/
structure FS where
  files : List (List Char × List Char)
  dirs : List (List Char)
deriving DecidableEq

/-- Reading a file: `some` content when the path exists. -/
def lookupFile (fs : FS) (p : List Char) : Option (List Char) :=
  (fs.files.find? (fun e => e.1 = p)).map (·.2)

/-- Writing a file (creating or overwriting). -/
def writeFileFS (fs : FS) (p c : List Char) : FS :=
  { fs with files := dictInsert p c fs.files }

/-- `Path.mkdir(exist_ok=True)` for a list of directories. -/
def mkdirP (fs : FS) (ds : List (List Char)) : FS :=
  { fs with dirs := fs.dirs ++ ds.filter (fun d => !fs.dirs.contains d) }

/-- The `main()` of `generate_flashcards.py`: creates the output directories,
returns early if `docs/algo.md` is missing or no sections were extracted,
otherwise writes the files of `generate_flashcard_files`. -/
def flashcardsMain (fs : FS) : FS :=
  let fs1 := mkdirP fs [str "generated", str "generated/flashcards"]
  match lookupFile fs1 (str "docs/algo.md") with
  | none => fs1
  | some content =>
    let sections := extract_algorithm_content content
    if sections.isEmpty then fs1
    else
      let fs2 := mkdirP fs1 [str "generated/flashcards"]
      (generateWrites sections).foldl (fun a pc => writeFileFS a pc.1 pc.2) fs2

/-! ### `scripts/generate_versions.py` -/

/-- The hardcoded `DOCUMENT_STRUCTURE`: ordered category groups of
`(source file name, display title)` pairs. -/
def DOCUMENT_STRUCTURE : List (List Char × List (List Char × List Char)) := [
  (str "Core Fundamentals", [
    (str "algo.md", str "Algorithms & Data Structures"),
    (str "Core_Data_Structures.md", str "Core Data Structures"),
    (str "graphs_linked_lists.md", str "Complex Data Structures"),
    (str "search.md", str "Searching & Sorting"),
    (str "sliding_window.md", str "Sliding Window Algorithms"),
    (str "frontend.md", str "Frontend Development"),
    (str "programming_languages.md", str "Programming Languages & Tools")]),
  (str "System Design & Architecture", [
    (str "system_design.md", str "System Design Problems"),
    (str "data_layer.md", str "Data Layer & Databases"),
    (str "design_patterns.md", str "Design Patterns"),
    (str "cheat_sheet.md", str "Cheat Sheet")]),
  (str "DevOps & Cloud", [
    (str "cicd.md", str "CI/CD & Infrastructure"),
    (str "reliability.md", str "Reliability Engineering (Internet Fundamentals, Observability, Chaos Engineering, Load Testing)")]),
  (str "Security & Performance", [
    (str "security_compliance.md", str "Security & Compliance")])]

/-- All `(file, title)` pairs of `DOCUMENT_STRUCTURE`, in traversal order. -/
def allSections : List (List Char × List Char) :=
  DOCUMENT_STRUCTURE.bind Prod.snd

/-- Greedy match of `\s*\n` at the start of `s` (the closing part of the
front-matter regex): consume the longest whitespace prefix ending in a
newline; returns the remainder, or `none` when no such prefix exists. -/
def matchWsNl (s : List Char) : Option (List Char) :=
  let run := s.takeWhile pyIsSpace
  match (((List.range run.length).filter fun j => run.getD j ' ' = '\n')).reverse with
  | [] => none
  | j :: _ => some (s.drop (j + 1))

/-- Match `.*?\n---\s*\n` (with `re.DOTALL`) against a prefix of `r`:
try each position left to right for a `"\n---"` occurrence followed by a
greedy `\s*\n`; returns the remainder after the full match. -/
def findClose : List Char → Option (List Char)
  | [] => none
  | a :: rest =>
    if (str "\n---").isPrefixOf (a :: rest) then
      match matchWsNl ((a :: rest).drop 4) with
      | some rem => some rem
      | none => findClose rest
    else findClose rest

/-- `re.sub(r'^---\s*\n.*?\n---\s*\n', '', content, flags=re.DOTALL)`:
the anchored front-matter removal.  The leading `\s*\n` backtracks from its
longest (greedy) candidate; each candidate newline position `j` within the
whitespace run after `"---"` is tried in decreasing order. -/
def stripFrontMatter (content : List Char) : List Char :=
  if (str "---").isPrefixOf content then
    let s := content.drop 3
    let run := s.takeWhile pyIsSpace
    let js := (((List.range run.length).filter fun j => run.getD j ' ' = '\n')).reverse
    match js.findSome? (fun j => findClose (s.drop (j + 1))) with
    | some rem => rem
    | none => content
  else content

/-- `re.sub(r'^#\s+.*?\n', '', content, count=1)` (no `re.MULTILINE`, so the
pattern only matches at the very start of the string): remove a leading `#`,
the following whitespace, and the rest of that line.  When no newline folloes
the whitespace run, the greedy `\s+` backtracks to the last newline within
the run (which must leave at least one whitespace character before it). -/
def stripLeadingHeading (content : List Char) : List Char :=
  match content with
  | '#' :: rest =>
    let w := rest.takeWhile pyIsSpace
    if w.isEmpty then content
    else
      let post := rest.drop w.length
      match splitFirst ['\n'] post with
      | some (_, after) => after
      | none =>
        match (((List.range w.length).filter fun j => w.getD j ' ' = '\n')).reverse with
        | [] => content
        | j :: _ => if j = 0 then content else rest.drop (j + 1)
  | _ => content

/-- `clean_markdown_content(content, is_printable)`: strip front matter and a
leading top-level heading, then `strip()` (the printable and web branches of
the Python function return the same expression). -/
def clean_markdown_content (content : List Char) (isPrintable : Bool) : List Char :=
  if content.isEmpty then []
  else
    let c1 := stripFrontMatter content
    let c2 := stripLeadingHeading c1
    match isPrintable with
    | true => pyStrip c2
    | false => pyStrip c2

/-- The fixed header parts of the printable version. -/
def printableHeader : List (List Char) := [
  str "# DevOps & Backend Study Guide - Complete Edition\n",
  str "*A comprehensive study guide covering DevOps, Chaos Engineering, and Backend Development fundamentals*\n",
  str "*Generated for printing and offline study*\n",
  str "---\n"]

/-- The table-of-contents parts shared by the printable version. -/
def tocParts : List (List Char) :=
  DOCUMENT_STRUCTURE.bind fun g =>
    (str "### " ++ g.1 ++ str "\n") ::
      (g.2.map fun s => str "- " ++ s.2 ++ str "\n") ++ [[]]

/-- The content-section parts of the printable version, for a given mapping
from file names to optional file contents (`none` = file does not exist). -/
def printableSectionParts (docs : List Char → Option (List Char)) :
    List (List Char) :=
  DOCUMENT_STRUCTURE.bind fun g =>
    (str "# " ++ g.1 ++ str "\n") ::
      g.2.bind fun s =>
        match docs s.1 with
        | none => []
        | some content =>
          let cleaned := clean_markdown_content content true
          if cleaned.isEmpty then []
          else [str "## " ++ s.2 ++ str "\n", cleaned, str "\n---\n"]

/-- The full `content_parts` list of `generate_printable_version`. -/
def printableParts (docs : List Char → Option (List Char)) : List (List Char) :=
  printableHeader ++ (str "## Table of Contents\n" :: tocParts) ++
    [str "---\n"] ++ printableSectionParts docs

/-- The text `generate_printable_version` writes: `'\n'.join(content_parts)`. -/
def printableOutput (docs : List Char → Option (List Char)) : List Char :=
  joinCh '\n' (printableParts docs)

/-- The anchor computed in the Quick Navigation loop of
`generate_github_pages_version`:
`re.sub(r'[^a-zA-Z0-9\s]', '', section_title).lower().replace(' ', '-')`. -/
def slugNav (t : List Char) : List Char :=
  ((t.filter fun c => c.isAlphanum || pyIsSpace c).map Char.toLower).map
    fun c => if c = ' ' then '-' else c

/-- The anchor computed in the content loop of
`generate_github_pages_version` (textually the same expression as in the
navigation loop). -/
def slugAnchor (t : List Char) : List Char :=
  ((t.filter fun c => c.isAlphanum || pyIsSpace c).map Char.toLower).map
    fun c => if c = ' ' then '-' else c

/-- The fixed header parts of the GitHub Pages version. -/
def ghHeader : List (List Char) := [
  str "---", str "title: Complete Study Guide", str "layout: default",
  str "---", [],
  str "# DevOps & Backend Study Guide - Complete Edition\n",
  str "*A comprehensive study guide covering DevOps, Chaos Engineering, and Backend Development fundamentals*\n",
  str "*[View individual sections](/) for better navigation*\n",
  str "---\n"]

/-- The Quick Navigation parts of the GitHub Pages version. -/
def ghNavParts : List (List Char) :=
  DOCUMENT_STRUCTURE.bind fun g =>
    (str "### " ++ g.1 ++ str "\n") ::
      (g.2.map fun s =>
        str "- [" ++ s.2 ++ str "](#" ++ slugNav s.2 ++ str ")\n") ++ [[]]

/-- The content-section parts of the GitHub Pages version, with anchor tags. -/
def ghSectionParts (docs : List Char → Option (List Char)) : List (List Char) :=
  DOCUMENT_STRUCTURE.bind fun g =>
    (str "# " ++ g.1 ++ str "\n") ::
      g.2.bind fun s =>
        match docs s.1 with
        | none => []
        | some content =>
          let cleaned := clean_markdown_content content false
          if cleaned.isEmpty then []
          else [str "<a name=\x27" ++ slugAnchor s.2 ++ str "\x27></a>",
                str "## " ++ s.2 ++ str "\n", cleaned, str "\n---\n"]

/-- The full `content_parts` list of `generate_github_pages_version`. -/
def ghParts (docs : List Char → Option (List Char)) : List (List Char) :=
  ghHeader ++ (str "## Quick Navigation\n" :: ghNavParts) ++ [str "---\n"] ++
    ghSectionParts docs ++
    [str "## Navigation\n",
     str "[↑ Back to Top](#devops--backend-study-guide---complete-edition)\n",
     str "[← Back to Index](/)"]

/-! ### `scripts/remove_emojis.py` and `scripts/remove_emojis_programming.py` -/

/-- The code points of the literal character class in
`remove_emojis.py` (the source file stores the glyphs in a mojibake
double-encoding; these are the code points actually present in it, in order
of first occurrence and without duplicates). -/
def emojiGlyphCodes : List Nat :=
  [0xe2, 0x161, 0xa1, 0x11f, 0x178, 0x152, 0xb3, 0x2019, 0xaf, 0xb0, 0x201c,
   0x160, 0x201d, 0x201e, 0xa2, 0x2022, 0xb8, 0xef, 0xaa, 0x2013, 0xa8]

/-- `emoji_pattern.sub('', content)` of `remove_emojis.py`:
substituting every match of a character class with the empty string removes
exactly the characters of the class. -/
def removeEmojisLiteral (s : List Char) : List Char :=
  s.filter fun c => !(emojiGlyphCodes.contains c.toNat)

/-- The Unicode-range character class of `remove_emojis(text)` in
`remove_emojis_programming.py`. -/
def inEmojiRanges (c : Char) : Bool :=
  let n := c.toNat
  (0x1F600 ≤ n && n ≤ 0x1F64F) || (0x1F300 ≤ n && n ≤ 0x1F5FF) ||
  (0x1F680 ≤ n && n ≤ 0x1F6FF) || (0x1F1E0 ≤ n && n ≤ 0x1F1FF) ||
  (0x2702 ≤ n && n ≤ 0x27B0) || (0x24C2 ≤ n && n ≤ 0x1F251)

/-- The second substitution's class `[🀄-\U0001ffd5]` (U+1F004 to U+1FFD5). -/
def inEmojiExtraRange (c : Char) : Bool :=
  0x1F004 ≤ c.toNat && c.toNat ≤ 0x1FFD5

/-- `remove_emojis(text)` of `remove_emojis_programming.py`: the range-class
substitution followed by the supplementary-range substitution. -/
def removeEmojisRanges (s : List Char) : List Char :=
  (s.filter fun c => !inEmojiRanges c).filter fun c => !inEmojiExtraRange c

/-! ### `scripts/rename_flashcards.py` -/

/-- The `emoji_mapping` of `rename_flashcards.py`, in source (= dict
iteration) order.  The keys are the code-point sequences actually stored in
the source file (mojibake double-encoding). -/
def emojiMapping : List (List Char × List Char) := [
  ([Char.ofNat 0xe2, Char.ofNat 0x161, Char.ofNat 0xa1],
   str "common-interview-patterns"),
  ([Char.ofNat 0xf0, Char.ofNat 0x178, Char.ofNat 0x152, Char.ofNat 0xb3],
   str "tree-traversal-pattern"),
  ([Char.ofNat 0xf0, Char.ofNat 0x178, Char.ofNat 0x17d, Char.ofNat 0xaf],
   str "problem-type-algorithm-pattern"),
  ([Char.ofNat 0xf0, Char.ofNat 0x178, Char.ofNat 0x201c, Char.ofNat 0x160],
   str "heap-pattern"),
  ([Char.ofNat 0xf0, Char.ofNat 0x178, Char.ofNat 0x201d, Char.ofNat 0x201e],
   str "backtracking-pattern"),
  ([Char.ofNat 0xf0, Char.ofNat 0x178, Char.ofNat 0x201d, Char.ofNat 0xa2],
   str "binary-search-pattern"),
  ([Char.ofNat 0xf0, Char.ofNat 0x178, Char.ofNat 0x2022, Char.ofNat 0xb8,
    Char.ofNat 0xef, Char.ofNat 0xb8],
   str "graph-traversal-pattern"),
  ([Char.ofNat 0xf0, Char.ofNat 0x178, Char.ofNat 0xaa, Char.ofNat 0x178],
   str "sliding-window-pattern"),
  ([Char.ofNat 0xf0, Char.ofNat 0x178, Char.ofNat 0x17d, Char.ofNat 0x2019],
   str "knapsack-pattern"),
  ([Char.ofNat 0xf0, Char.ofNat 0x178, Char.ofNat 0x2019, Char.ofNat 0xb0],
   str "classic-dp-pattern"),
  ([Char.ofNat 0xf0, Char.ofNat 0x178, Char.ofNat 0x201d],
   str "two-pointers-pattern")]

/-- The per-file body of the rename loop in `rename_flashcard_files`: the
first mapping entry (in dict order) whose key followed by `'-'` is a prefix
of the filename determines the new name; the loop `break`s after it, so each
file is renamed at most once; with no matching entry the name is unchanged. -/
def renameOne (filename : List Char) : List Char :=
  match emojiMapping.find? (fun e => (e.1 ++ ['-']).isPrefixOf filename) with
  | some e => e.2 ++ str "-flashcards.md"
  | none => filename

/-- Concrete document map for the C1 counterexample: only `algo.md` exists
and its whole content is the single line `"hello  "` (with trailing spaces). -/
def docsC1 : List Char → Option (List Char) := fun f =>
  if f = str "algo.md" then some (str "hello  ") else none

/-- Concrete document map for the C9 witness. -/
def docsC9 : List Char → Option (List Char) := fun f =>
  if f = str "search.md" then some (str "body") else none

/-- The concrete input of the C10 counterexample: a guide whose second
pattern-header line carries leading whitespace, so it is collected into the
previous section's body and the body-level `strip()` then exposes it as the
body's first line. -/
def exC10 : List Char :=
  str "## Algorithm Problem Identification Guide\n#### **A Pattern**\n   #### **B Pattern**\nrest"

/-- Right-stripping the last non-blank line: the reversed-list worker for
`pyRStrip` applied to a newline-join. -/
def rstripLinesRev : List (List Char) → List (List Char)
  | [] => []
  | l :: rest => if allWs l then rstripLinesRev rest else pyRStrip l :: rest

/-- The effect of `pyRStrip` on a list of joined lines: trailing all-blank
lines disappear and the last remaining line is right-stripped. -/
def rstripLines (ls : List (List Char)) : List (List Char) :=
  (rstripLinesRev ls.reverse).reverse

/-- The section invariant maintained by `extractLoop`: the key is the strip of
some header-shaped line of `L`, and no line of the stored body except its
first is header-shaped. -/
def sectionInv (L : List (List Char)) (kv : List Char × List Char) : Prop :=
  (∃ l ∈ L, rawHeaderTest l = true ∧ kv.1 = pyStrip l) ∧
    ∀ line ∈ (splitCh '\n' kv.2).tail, rawHeaderTest line = false

/-! ### Helper lemmas -/

theorem splitFirst_eq {pat : List Char} :
    ∀ {l pre post : List Char}, splitFirst pat l = some (pre, post) →
      l = pre ++ pat ++ post := by
  intro l
  induction l with
  | nil =>
    intro pre post h
    by_cases hp : pat.isEmpty
    · rw [List.isEmpty_iff] at hp
      subst hp
      simp [splitFirst] at h
      simp [h.1, h.2]
    · simp [splitFirst, hp] at h
  | cons a rest ih =>
    intro pre post h
    simp only [splitFirst] at h
    by_cases hp : pat.isPrefixOf (a :: rest)
    · rw [if_pos hp] at h
      simp only [Option.some.injEq, Prod.mk.injEq] at h
      obtain ⟨h1, h2⟩ := h
      subst h1
      rw [ List.isPrefixOf_iff_prefix] at hp
      obtain ⟨t, ht⟩ := hp
      subst h2
      simp only [List.nil_append]
      rw [← ht, List.drop_left]
    · simp only [hp, if_neg, Bool.false_eq_true, not_false_iff] at h
      cases hsf : splitFirst pat rest with
      | none => rw [hsf] at h; exact absurd h (by simp)
      | some pp =>
        rw [hsf] at h
        obtain ⟨pre', post'⟩ := pp
        simp only [Option.some.injEq, Prod.mk.injEq] at h
        obtain ⟨h1, h2⟩ := h
        have := ih hsf
        subst h2
        rw [← h1]
        simp [this]

theorem occurs_iff {pat s : List Char} : occurs pat s = true ↔ pat <:+: s := by
  constructor
  · intro h
    rw [occurs, Option.isSome_iff_exists] at h
    obtain ⟨⟨pre, post⟩, hp⟩ := h
    exact ⟨pre, post, (splitFirst_eq hp).symm⟩
  · intro h
    induction s with
    | nil =>
      rw [List.infix_nil] at h
      subst h
      simp [occurs, splitFirst]
    | cons a rest ih =>
      rw [occurs]
      simp only [splitFirst]
      by_cases hp : pat.isPrefixOf (a :: rest)
      · simp [hp]
      · simp only [hp, if_neg, Bool.false_eq_true, not_false_iff]
        rw [List.infix_cons_iff] at h
        rcases h with h | h
        · rw [← List.isPrefixOf_iff_prefix] at h
          exact absurd h hp
        · have := ih h
          rw [occurs, Option.isSome_iff_exists] at this
          obtain ⟨⟨pre, post⟩, hsf⟩ := this
          simp [hsf]

theorem splitFirst_post_length {pat l pre post : List Char}
    (h : splitFirst pat l = some (pre, post)) (hpat : pat ≠ []) :
    post.length < l.length := by
  have := splitFirst_eq h
  subst this
  have : 0 < pat.length := List.length_pos.mpr hpat
  simp [List.length_append]
  omega


theorem ne_of_head_ne {a b : Char} {t u : List Char} (h : a ≠ b) :
    a :: t ≠ b :: u := by
  intro he
  rw [List.cons.injEq] at he
  exact h he.1

theorem indicator_front_ne (p q : List Char) :
    str "Identify the algorithm pattern for: " ++ p ≠ complexityFront q := by
  have h1 : str "Identify the algorithm pattern for: " =
      'I' :: str "dentify the algorithm pattern for: " := by decide
  have h2 : str "What is the time/space complexity of " =
      'W' :: str "hat is the time/space complexity of " := by decide
  rw [complexityFront, h1, h2]
  simp only [List.cons_append]
  exact ne_of_head_ne (by decide)

theorem example_front_ne (p q : List Char) :
    str "Give examples of " ++ p ++ str " problems" ≠ complexityFront q := by
  have h1 : str "Give examples of " = 'G' :: str "ive examples of " := by decide
  have h2 : str "What is the time/space complexity of " =
      'W' :: str "hat is the time/space complexity of " := by decide
  rw [complexityFront, h1, h2]
  simp only [List.cons_append]
  exact ne_of_head_ne (by decide)

theorem implement_front_ne (f p q : List Char) :
    str "Implement " ++ f ++ str " using " ++ p ≠ complexityFront q := by
  have h1 : str "Implement " = 'I' :: str "mplement " := by decide
  have h2 : str "What is the time/space complexity of " =
      'W' :: str "hat is the time/space complexity of " := by decide
  rw [complexityFront, h1, h2]
  simp only [List.cons_append]
  exact ne_of_head_ne (by decide)

theorem mem_implementCards {p content : List Char} {cd : Flashcard}
    (h : cd ∈ implementCards p content) :
    ∃ f code, cd = { front := str "Implement " ++ f ++ str " using " ++ p,
                     back := str "```python\n" ++ code ++ str "\n```" } := by
  rw [implementCards, List.mem_filterMap] at h
  obtain ⟨code, _, hmap⟩ := h
  cases hfn : findDefName code with
  | none => rw [hfn] at hmap; exact absurd hmap (by simp)
  | some f =>
    rw [hfn] at hmap
    simp at hmap
    refine ⟨f, code, ?_⟩
    rw [← hmap]
    simp [List.append_assoc]

theorem indicatorCards_length_le (p content : List Char) :
    (indicatorCards p content).length ≤ 1 := by
  rw [indicatorCards]
  cases indicatorsCapture content <;> simp

theorem exampleCards_length_le (p content : List Char) :
    (exampleCards p content).length ≤ 1 := by
  rw [exampleCards]
  cases examplesCapture content <;> simp

/-! ### Claims -/

/-- C4. Emoji stripping is idempotent: for every input text, applying the
emoji-removal substitution twice yields the same result as applying it once,
both for the literal-glyph variant (`remove_emojis.py`) and for the
Unicode-range variant (`remove_emojis_programming.py`). -/
theorem emoji_stripping_idempotent (s : List Char) :
    removeEmojisLiteral (removeEmojisLiteral s) = removeEmojisLiteral s ∧
    removeEmojisRanges (removeEmojisRanges s) = removeEmojisRanges s := by
  constructor
  · rw [removeEmojisLiteral, removeEmojisLiteral, List.filter_filter]
    apply List.filter_congr
    intro a _
    cases h : (!emojiGlyphCodes.contains a.toNat) <;> simp [h]
  · rw [removeEmojisRanges, removeEmojisRanges]
    simp only [List.filter_filter]
    apply List.filter_congr
    intro a _
    cases h1 : (!inEmojiRanges a) <;> cases h2 : (!inEmojiExtraRange a) <;>
      simp [h1, h2]

/-- C3. A section body with exactly one fenced code block carrying a
recognizable `def` declaration yields exactly one "Implement" card and at
most 4 cards total; in general a section yields at most two "Implement"
cards however many code blocks its body contains. -/
theorem implement_card_counts :
    (∀ p content c f, findCodeBlocks content = [c] → findDefName c = some f →
      (implementCards p content).length = 1 ∧
      (create_flashcard_content p content).length ≤ 4) ∧
    (∀ p content, (implementCards p content).length ≤ 2) := by
  constructor
  · intro p content c f h1 h2
    have himpl : (implementCards p content).length = 1 := by
      rw [implementCards, h1]
      simp [h2]
    refine ⟨himpl, ?_⟩
    rw [create_flashcard_content]
    simp only [List.length_append, List.length_singleton]
    have ha := indicatorCards_length_le p content
    have hb := exampleCards_length_le p content
    omega
  · intro p content
    calc (implementCards p content).length
        ≤ ((findCodeBlocks content).take 2).length := List.length_filterMap_le _ _
      _ ≤ 2 := by simp [List.length_take]

/-- Witness for C3 at a concrete one-block body. -/
theorem implement_card_counts_witness :
    (implementCards (str "P") (str "```python\ndef f(x):\n    return x\n```")).length = 1 ∧
    (create_flashcard_content (str "P")
      (str "```python\ndef f(x):\n    return x\n```")).length ≤ 4 :=
  implement_card_counts.1 (str "P") (str "```python\ndef f(x):\n    return x\n```")
    (str "def f(x):\n    return x") (str "f") (by decide) (by decide)

/-- C5. Every section yields exactly one complexity card, and its answer is a
pure function of the pattern name: the lookup-table entry when the name is a
known pattern, the fixed generic fallback otherwise. -/
theorem complexity_card_unique (p content : List Char) :
    ((create_flashcard_content p content).filter
      (fun cd => cd.front = complexityFront p)).length = 1 ∧
    (∀ cd ∈ create_flashcard_content p content,
      cd.front = complexityFront p → cd.back = complexityAnswer p) ∧
    (∀ e ∈ complexityInfo, p = e.1 → complexityAnswer p = e.2) ∧
    ((∀ e ∈ complexityInfo, p ≠ e.1) →
      complexityAnswer p = str "Varies by implementation") := by
  refine ⟨?_, ?_, ?_, ?_⟩
  · rw [create_flashcard_content]
    simp only [List.filter_append, List.length_append]
    have hA : (indicatorCards p content).filter
        (fun cd => cd.front = complexityFront p) = [] := by
      rw [List.filter_eq_nil_iff]
      intro cd hcd
      rw [indicatorCards] at hcd
      cases hc : indicatorsCapture content <;> rw [hc] at hcd
      · simp at hcd
      · simp at hcd
        simp [hcd, indicator_front_ne]
    have hB : (exampleCards p content).filter
        (fun cd => cd.front = complexityFront p) = [] := by
      rw [List.filter_eq_nil_iff]
      intro cd hcd
      rw [exampleCards] at hcd
      cases hc : examplesCapture content <;> rw [hc] at hcd
      · simp at hcd
      · simp at hcd
        rw [hcd]
        simp only [decide_eq_true_eq, ← List.append_assoc]
        exact example_front_ne p p
    have hC : (implementCards p content).filter
        (fun cd => cd.front = complexityFront p) = [] := by
      rw [List.filter_eq_nil_iff]
      intro cd hcd
      obtain ⟨f, code, rfl⟩ := mem_implementCards hcd
      simp only [decide_eq_true_eq, ← List.append_assoc]
      exact implement_front_ne f p p
    rw [hA, hB, hC]
    simp [complexityCard]
  · intro cd hcd _hfront
    rw [create_flashcard_content] at hcd
    simp only [List.mem_append, List.mem_singleton] at hcd
    rcases hcd with ((hcd | hcd) | hcd) | hcd
    · exfalso
      rw [indicatorCards] at hcd
      cases hc : indicatorsCapture content <;> rw [hc] at hcd
      · simp at hcd
      · simp at hcd
        rw [hcd] at _hfront
        exact indicator_front_ne p p _hfront
    · exfalso
      rw [exampleCards] at hcd
      cases hc : examplesCapture content <;> rw [hc] at hcd
      · simp at hcd
      · simp at hcd
        rw [hcd] at _hfront
        rw [← List.append_assoc] at _hfront
        exact example_front_ne p p _hfront
    · exfalso
      obtain ⟨f, code, rfl⟩ := mem_implementCards hcd
      simp only [← List.append_assoc] at _hfront
      exact implement_front_ne f p p _hfront
    · rw [hcd]
      rfl
  · intro e he hp
    subst hp
    fin_cases he <;> rfl
  · intro h
    rw [complexityAnswer, List.find?_eq_none.mpr]
    intro x hx
    simpa using fun hxe => h x hx hxe.symm

/-- Witness for C5 at a concrete known pattern name. -/
theorem complexity_card_unique_witness :
    ((create_flashcard_content (str "Heap") (str "")).filter
      (fun cd => cd.front = complexityFront (str "Heap"))).length = 1 ∧
    complexityAnswer (str "Heap") = str "O(n log k) time, O(k) space" :=
  ⟨(complexity_card_unique (str "Heap") (str "")).1,
   (complexity_card_unique (str "Heap") (str "")).2.2.1
     (str "Heap", str "O(n log k) time, O(k) space") (by decide) (by decide)⟩

/-- C7. Every flashcard emitted by the synthesizer has non-empty front and
back text, for every pattern name and section body. -/
theorem flashcards_nonempty (p content : List Char) :
    ∀ cd ∈ create_flashcard_content p content, cd.front ≠ [] ∧ cd.back ≠ [] := by
  have hanswer : complexityAnswer p ≠ [] := by
    rw [complexityAnswer]
    cases hf : complexityInfo.find? (fun e => e.1 = p) with
    | none => decide
    | some e =>
      have he := List.mem_of_find?_eq_some hf
      have : ∀ e ∈ complexityInfo, e.2 ≠ [] := by decide
      exact this e he
  intro cd hcd
  rw [create_flashcard_content] at hcd
  simp only [List.mem_append, List.mem_singleton] at hcd
  rcases hcd with ((hcd | hcd) | hcd) | hcd
  · rw [indicatorCards] at hcd
    cases hc : indicatorsCapture content <;> rw [hc] at hcd
    · simp at hcd
    · simp at hcd
      rw [hcd]
      constructor
      · rw [show str "Identify the algorithm pattern for: " =
            'I' :: str "dentify the algorithm pattern for: " from by decide]
        simp
      · rw [show str "Key indicators:\n" = 'K' :: str "ey indicators:\n" from by decide]
        simp
  · rw [exampleCards] at hcd
    cases hc : examplesCapture content <;> rw [hc] at hcd
    · simp at hcd
    · simp at hcd
      rw [hcd]
      constructor
      · rw [show str "Give examples of " = 'G' :: str "ive examples of " from by decide]
        simp
      · rw [show str "Common examples:\n" = 'C' :: str "ommon examples:\n" from by decide]
        simp
  · obtain ⟨f, code, rfl⟩ := mem_implementCards hcd
    constructor
    · rw [show str "Implement " = 'I' :: str "mplement " from by decide]
      simp
    · rw [show str "```python\n" = '`' :: str "``python\n" from by decide]
      simp
  · rw [hcd]
    refine ⟨?_, hanswer⟩
    rw [complexityCard, complexityFront,
      show str "What is the time/space complexity of " =
        'W' :: str "hat is the time/space complexity of " from by decide]
    simp

/-- Witness for C7 at a concrete card of a concrete section. -/
theorem flashcards_nonempty_witness :
    (complexityCard (str "X")).front ≠ [] ∧ (complexityCard (str "X")).back ≠ [] :=
  flashcards_nonempty (str "X") (str "") (complexityCard (str "X")) (by decide)

/-- C8. A filename beginning with a known emoji prefix followed by a hyphen
is renamed to the mapped clean name suffixed with `-flashcards.md` (the match
is unambiguous, and the loop `break`s so each file is renamed at most once);
a filename matching no prefix is left untouched. -/
theorem rename_flashcard_files_spec (fn : List Char) :
    (∀ e ∈ emojiMapping, (e.1 ++ ['-']) <+: fn →
      renameOne fn = e.2 ++ str "-flashcards.md") ∧
    ((∀ e ∈ emojiMapping, ¬((e.1 ++ ['-']) <+: fn)) → renameOne fn = fn) := by
  constructor
  · intro e he hpre
    rw [renameOne]
    cases hf : emojiMapping.find? (fun e => (e.1 ++ ['-']).isPrefixOf fn) with
    | none =>
      rw [List.find?_eq_none] at hf
      have hb := List.isPrefixOf_iff_prefix.mpr hpre
      exact absurd hb (by simpa using hf e he)
    | some e' =>
      have he'm := List.mem_of_find?_eq_some hf
      have hp0 := List.find?_some hf
      have he'p : (e'.1 ++ ['-']) <+: fn :=
        List.isPrefixOf_iff_prefix.mp (by simpa using hp0)
      have key : ∀ a ∈ emojiMapping, ∀ b ∈ emojiMapping,
          (a.1 ++ ['-']) <+: (b.1 ++ ['-']) → a = b := by decide
      rcases List.prefix_or_prefix_of_prefix hpre he'p with h | h
      · rw [key e he e' he'm h]
      · rw [key e' he'm e he h]
  · intro h
    rw [renameOne, List.find?_eq_none.mpr]
    intro x hx
    simpa [ List.isPrefixOf_iff_prefix] using h x hx

/-- Witness for C8: one renamed filename and one untouched filename. -/
theorem rename_flashcard_files_spec_witness :
    renameOne ([Char.ofNat 0xe2, Char.ofNat 0x161, Char.ofNat 0xa1] ++ str "-a.md") =
      str "common-interview-patterns-flashcards.md" ∧
    renameOne (str "plain.md") = str "plain.md" :=
  ⟨(rename_flashcard_files_spec _).1
      ([Char.ofNat 0xe2, Char.ofNat 0x161, Char.ofNat 0xa1],
       str "common-interview-patterns") (by decide) (by decide),
   (rename_flashcard_files_spec _).2 (by decide)⟩

theorem lookupFile_mkdirP (fs : FS) (ds : List (List Char)) (p : List Char) :
    lookupFile (mkdirP fs ds) p = lookupFile fs p := rfl

/-- C2. For input text lacking the anchor heading, the extractor warns and
returns an empty mapping, and the pipeline then writes no output files. -/
theorem extract_no_anchor (content : List Char) (fs : FS)
    (h : ¬(anchorHeading <:+: content)) :
    extract_algorithm_content content = [] ∧
    extractWarns content = true ∧
    (lookupFile fs (str "docs/algo.md") = some content →
      (flashcardsMain fs).files = fs.files) := by
  have hnone : splitFirst anchorHeading content = none := by
    cases hs : splitFirst anchorHeading content with
    | none => rfl
    | some pr => exact absurd (occurs_iff.mp (by simp [occurs, hs])) h
  have hext : extract_algorithm_content content = [] := by
    rw [extract_algorithm_content, hnone]
  refine ⟨hext, by rw [extractWarns, hnone]; rfl, ?_⟩
  intro hlk
  rw [flashcardsMain]
  simp only [lookupFile_mkdirP, hlk, hext]
  rfl

/-- Witness for C2 at a concrete anchor-free input. -/
theorem extract_no_anchor_witness :
    extract_algorithm_content (str "nothing here") = [] ∧
    (flashcardsMain (FS.mk [(str "docs/algo.md", str "nothing here")] [])).files =
      (FS.mk [(str "docs/algo.md", str "nothing here")] []).files :=
  ⟨(extract_no_anchor (str "nothing here")
      (FS.mk [(str "docs/algo.md", str "nothing here")] []) (by decide)).1,
   (extract_no_anchor (str "nothing here")
      (FS.mk [(str "docs/algo.md", str "nothing here")] []) (by decide)).2.2 (by decide)⟩

/-- C6, counterexample to "leaving the file-system state unchanged": with
`docs/algo.md` absent, `main()` still creates the output directories
(`output_dir.mkdir(parents=True, exist_ok=True)` runs before the existence
check), so the file-system state does change on an initially empty state. -/
theorem missing_algo_counterexample :
    lookupFile (FS.mk [] []) (str "docs/algo.md") = none ∧
    flashcardsMain (FS.mk [] []) ≠ FS.mk [] [] := by decide

/-- C6 (amended). When `docs/algo.md` is absent the flashcard generator exits
early without writing or modifying any file; the only state change is the
creation of the output directories. -/
theorem missing_algo_no_output (fs : FS)
    (h : lookupFile fs (str "docs/algo.md") = none) :
    (flashcardsMain fs).files = fs.files ∧
    (flashcardsMain fs).dirs =
      (mkdirP fs [str "generated", str "generated/flashcards"]).dirs := by
  rw [flashcardsMain]
  simp only [lookupFile_mkdirP, h]
  exact ⟨rfl, trivial⟩

/-- Witness for C6 (amended) at the empty file-system state. -/
theorem missing_algo_no_output_witness :
    (flashcardsMain (FS.mk [] [])).files = (FS.mk [] []).files :=
  (missing_algo_no_output (FS.mk [] []) (by decide)).1

/-- C1, counterexample: `"hello  "` is a line of a listed, existing source
file; it lies in no front-matter block and is no top-level heading line, yet
it occurs nowhere among the lines of the printable output (the assembler's
`strip()` removed its trailing spaces), so the printable output does not
recover every non-front-matter, non-title source line. -/
theorem printable_roundtrip_counterexample :
    (str "algo.md", str "Algorithms & Data Structures") ∈ allSections ∧
    docsC1 (str "algo.md") = some (str "hello  ") ∧
    splitCh '\n' (str "hello  ") = [str "hello  "] ∧
    ¬((str "---") <+: str "hello  ") ∧
    '#' ∉ str "hello  " ∧
    str "hello  " ∉ splitCh '\n' (printableOutput docsC1) := by decide

/-- C1 (amended). For every listed `(file, title)` pair whose file exists and
whose cleaned content (front matter and leading title removed, whitespace
trimmed) is non-empty, that cleaned content appears verbatim as one of the
parts the printable assembler joins with `'\n'`, so its lines appear in the
output contiguously, in order, exactly once per part. -/
theorem printable_contains_cleaned (docs : List Char → Option (List Char))
    (f t c : List Char) (hmem : (f, t) ∈ allSections) (hdocs : docs f = some c)
    (hne : clean_markdown_content c true ≠ []) :
    clean_markdown_content c true ∈ printableSectionParts docs ∧
    clean_markdown_content c true ∈ printableParts docs := by
  have hD : clean_markdown_content c true ∈ printableSectionParts docs := by
    rw [allSections, List.mem_bind] at hmem
    obtain ⟨g, hg, hft⟩ := hmem
    rw [printableSectionParts, List.mem_bind]
    refine ⟨g, hg, ?_⟩
    rw [List.mem_cons]
    right
    rw [List.mem_bind]
    refine ⟨(f, t), hft, ?_⟩
    simp only [hdocs]
    rw [if_neg (by simpa [List.isEmpty_iff] using hne)]
    simp
  exact ⟨hD, by rw [printableParts]; simp [List.mem_append, hD]⟩

/-- Witness for C1 (amended) at a concrete document map. -/
theorem printable_contains_cleaned_witness :
    clean_markdown_content (str "hello  ") true ∈ printableParts docsC1 :=
  (printable_contains_cleaned docsC1 (str "algo.md")
    (str "Algorithms & Data Structures") (str "hello  ")
    (by decide) (by decide) (by decide)).2

theorem mem_ghParts_of_nav {x : List Char} {docs : List Char → Option (List Char)}
    (h : x ∈ ghNavParts) : x ∈ ghParts docs := by
  rw [ghParts]
  simp only [List.mem_append, List.mem_cons]
  tauto

theorem mem_ghParts_of_section {x : List Char} {docs : List Char → Option (List Char)}
    (h : x ∈ ghSectionParts docs) : x ∈ ghParts docs := by
  rw [ghParts]
  simp only [List.mem_append, List.mem_cons]
  tauto

/-- C9. The anchor string in each Quick Navigation link and the anchor name
attribute emitted before the corresponding section are computed by the same
slug transformation, hence are character-for-character equal; for every
listed pair with existing, non-trivial content both the navigation line and
the anchor tag occur in the GitHub Pages parts with that one shared slug. -/
theorem gh_pages_anchor_agreement :
    (∀ t, slugNav t = slugAnchor t) ∧
    (∀ docs f t c, (f, t) ∈ allSections → docs f = some c →
      clean_markdown_content c false ≠ [] →
      (str "- [" ++ t ++ str "](#" ++ slugNav t ++ str ")\n") ∈ ghParts docs ∧
      (str "<a name=\x27" ++ slugAnchor t ++ str "\x27></a>") ∈ ghParts docs) := by
  refine ⟨fun t => rfl, ?_⟩
  intro docs f t c hmem hdocs hne
  rw [allSections, List.mem_bind] at hmem
  obtain ⟨g, hg, hft⟩ := hmem
  constructor
  · have hnav : (str "- [" ++ t ++ str "](#" ++ slugNav t ++ str ")\n") ∈ ghNavParts := by
      rw [ghNavParts, List.mem_bind]
      refine ⟨g, hg, ?_⟩
      apply List.mem_cons_of_mem
      apply List.mem_append_left
      exact List.mem_map_of_mem _ hft
    exact mem_ghParts_of_nav hnav
  · have hsec : (str "<a name=\x27" ++ slugAnchor t ++ str "\x27></a>") ∈
        ghSectionParts docs := by
      rw [ghSectionParts, List.mem_bind]
      refine ⟨g, hg, ?_⟩
      rw [List.mem_cons]
      right
      rw [List.mem_bind]
      refine ⟨(f, t), hft, ?_⟩
      simp only [hdocs]
      rw [if_neg (by simpa [List.isEmpty_iff] using hne)]
      simp
    exact mem_ghParts_of_section hsec

/-- Witness for C9 at a concrete document map and section. -/
theorem gh_pages_anchor_agreement_witness :
    (str "- [" ++ str "Searching & Sorting" ++ str "](#" ++
      slugNav (str "Searching & Sorting") ++ str ")\n") ∈ ghParts docsC9 ∧
    (str "<a name=\x27" ++ slugAnchor (str "Searching & Sorting") ++
      str "\x27></a>") ∈ ghParts docsC9 :=
  gh_pages_anchor_agreement.2 docsC9 (str "search.md") (str "Searching & Sorting")
    (str "body") (by decide) (by decide) (by decide)

/-! ### Line-splitting and stripping lemmas (used for the extractor claims) -/

theorem splitCh_ne_nil (c : Char) (s : List Char) : splitCh c s ≠ [] := by
  induction s with
  | nil => simp [splitCh]
  | cons a rest ih =>
    rw [splitCh]
    by_cases h : a = c
    · simp [h]
    · simp only [h, if_neg, not_false_iff]
      cases hs : splitCh c rest with
      | nil => simp
      | cons x t => simp

theorem mem_splitCh_not_mem (c : Char) (s : List Char) :
    ∀ m ∈ splitCh c s, c ∉ m := by
  induction s with
  | nil =>
    intro m hm
    simp [splitCh] at hm
    simp [hm]
  | cons a rest ih =>
    intro m hm
    rw [splitCh] at hm
    by_cases h : a = c
    · rw [if_pos h] at hm
      rcases List.mem_cons.mp hm with rfl | hm'
      · simp
      · exact ih m hm'
    · rw [if_neg h] at hm
      cases hs : splitCh c rest with
      | nil => exact absurd hs (splitCh_ne_nil c rest)
      | cons x t =>
        rw [hs] at hm
        rcases List.mem_cons.mp hm with rfl | hm'
        · intro hcm
          rcases List.mem_cons.mp hcm with he | hx
          · exact h he.symm
          · exact ih x (hs ▸ List.mem_cons_self x t) hx
        · exact ih m (hs ▸ List.mem_cons_of_mem x hm')

theorem splitCh_of_not_mem {c : Char} {s : List Char} (h : c ∉ s) :
    splitCh c s = [s] := by
  induction s with
  | nil => rfl
  | cons a rest ih =>
    rw [splitCh, if_neg (fun he => h (by simp [he])),
      ih (fun hm => h (List.mem_cons_of_mem a hm))]

theorem splitCh_append_cons (c : Char) (a b : List Char) :
    splitCh c (a ++ c :: b) = splitCh c a ++ splitCh c b := by
  induction a with
  | nil => simp [splitCh]
  | cons x a' ih =>
    rw [List.cons_append, splitCh, splitCh, ih]
    by_cases h : x = c
    · rw [if_pos h, if_pos h]
      rfl
    · rw [if_neg h, if_neg h]
      cases hs : splitCh c a' with
      | nil => exact absurd hs (splitCh_ne_nil c a')
      | cons y t => simp

theorem joinCh_cons₂ (c : Char) (l m : List Char) (rest : List (List Char)) :
    joinCh c (l :: m :: rest) = l ++ c :: joinCh c (m :: rest) := rfl

theorem joinCh_cons_append (c : Char) (l : List Char) (ls ms : List (List Char))
    (hms : ms ≠ []) :
    joinCh c ((l :: ls) ++ ms) = joinCh c (l :: ls) ++ c :: joinCh c ms := by
  induction ls generalizing l with
  | nil =>
    cases ms with
    | nil => exact absurd rfl hms
    | cons m ms' => rfl
  | cons l2 ls' ih =>
    rw [List.cons_append, List.cons_append, joinCh_cons₂, ← List.cons_append,
      ih l2, joinCh_cons₂]
    simp [List.append_assoc]

theorem joinCh_append_of_ne_nil (c : Char) (ls ms : List (List Char))
    (hls : ls ≠ []) (hms : ms ≠ []) :
    joinCh c (ls ++ ms) = joinCh c ls ++ c :: joinCh c ms := by
  cases ls with
  | nil => exact absurd rfl hls
  | cons l ls' => exact joinCh_cons_append c l ls' ms hms

theorem splitCh_joinCh {c : Char} {ls : List (List Char)}
    (h : ∀ l ∈ ls, c ∉ l) (hne : ls ≠ []) :
    splitCh c (joinCh c ls) = ls := by
  induction ls with
  | nil => exact absurd rfl hne
  | cons l ls' ih =>
    cases ls' with
    | nil => exact splitCh_of_not_mem (h l (List.mem_cons_self l []))
    | cons m rest =>
      rw [joinCh_cons₂, splitCh_append_cons,
        splitCh_of_not_mem (h l (List.mem_cons_self l _)),
        ih (fun x hx => h x (List.mem_cons_of_mem l hx)) (by simp)]
      rfl

theorem allWs_iff {s : List Char} : allWs s = true ↔ ∀ x ∈ s, pyIsSpace x := by
  simp [allWs, List.all_eq_true]

theorem pyRStrip_append (x y : List Char) :
    pyRStrip (x ++ y) = if allWs y then pyRStrip x else x ++ pyRStrip y := by
  rw [pyRStrip, List.reverse_append, List.dropWhile_append]
  by_cases h : allWs y
  · have hnil : y.reverse.dropWhile pyIsSpace = [] := by
      rw [List.dropWhile_eq_nil_iff]
      intro a ha
      exact allWs_iff.mp h a (List.mem_reverse.mp ha)
    rw [if_pos h, hnil]
    rfl
  · have hnn : y.reverse.dropWhile pyIsSpace ≠ [] := by
      intro he
      apply h
      rw [allWs_iff]
      intro a ha
      exact List.dropWhile_eq_nil_iff.mp he a (List.mem_reverse.mpr ha)
    rw [if_neg h, if_neg (by simpa [List.isEmpty_iff] using hnn),
      List.reverse_append, List.reverse_reverse]
    rfl

theorem pyLStrip_append (x y : List Char) :
    pyLStrip (x ++ y) = if allWs x then pyLStrip y else pyLStrip x ++ y := by
  rw [pyLStrip, List.dropWhile_append]
  by_cases h : allWs x
  · have hnil : x.dropWhile pyIsSpace = [] := by
      rw [List.dropWhile_eq_nil_iff]
      exact fun a ha => allWs_iff.mp h a ha
    rw [if_pos h, hnil]
    rfl
  · have hnn : x.dropWhile pyIsSpace ≠ [] := by
      intro he
      apply h
      rw [allWs_iff]
      exact fun a ha => List.dropWhile_eq_nil_iff.mp he a ha
    rw [if_neg h, if_neg (by simpa [List.isEmpty_iff] using hnn)]
    rfl

theorem pyRStrip_nil_of_allWs {l : List Char} (h : allWs l = true) :
    pyRStrip l = [] := by
  rw [pyRStrip, List.dropWhile_eq_nil_iff.mpr
    (fun a ha => allWs_iff.mp h a (List.mem_reverse.mp ha))]
  rfl

theorem pyRStrip_prefix_self (l : List Char) : pyRStrip l <+: l := by
  rw [pyRStrip]
  have := List.dropWhile_suffix (l := l.reverse) pyIsSpace
  rw [← List.reverse_prefix] at this
  simpa using this

theorem pyRStrip_decomp (l : List Char) :
    ∃ t, l = pyRStrip l ++ t ∧ allWs t = true := by
  refine ⟨(l.reverse.takeWhile pyIsSpace).reverse, ?_, ?_⟩
  · rw [pyRStrip, ← List.reverse_append, List.takeWhile_append_dropWhile,
      List.reverse_reverse]
  · rw [allWs_iff]
    intro a ha
    exact List.mem_takeWhile_imp (List.mem_reverse.mp ha)

theorem pyLStrip_of_head_not_ws {a : Char} {l : List Char}
    (h : pyIsSpace a = false) : pyLStrip (a :: l) = a :: l := by
  rw [pyLStrip, List.dropWhile_cons_of_neg (by simp [h])]

theorem pyRStrip_joinCh (ls : List (List Char)) :
    pyRStrip (joinCh '\n' ls) = joinCh '\n' (rstripLines ls) := by
  induction ls using List.reverseRecOn with
  | nil => rfl
  | append_singleton ls l ih =>
    have hrl : rstripLines (ls ++ [l]) =
        if allWs l then rstripLines ls else ls ++ [pyRStrip l] := by
      rw [rstripLines, List.reverse_append, List.reverse_singleton,
        List.singleton_append, rstripLinesRev]
      by_cases h : allWs l
      · rw [if_pos h, if_pos h]
        rfl
      · rw [if_neg h, if_neg h, List.reverse_cons, List.reverse_reverse]
    by_cases hn : ls = []
    · subst hn
      rw [List.nil_append] at hrl ⊢
      rw [hrl]
      by_cases h : allWs l
      · rw [if_pos h]
        simp [joinCh, pyRStrip_nil_of_allWs h, rstripLines, rstripLinesRev]
      · rw [if_neg h]
        simp [joinCh]
    · rw [joinCh_append_of_ne_nil '\n' ls [l] hn (by simp),
        show joinCh '\n' [l] = l from rfl, pyRStrip_append, hrl]
      have hcons : allWs ('\n' :: l) = allWs l := by
        simp [allWs, show pyIsSpace '\n' = true from by decide]
      by_cases h : allWs l
      · rw [if_pos (by rw [hcons]; exact h), if_pos h, ih]
      · rw [if_neg (by rw [hcons]; exact h), if_neg h,
          joinCh_append_of_ne_nil '\n' ls [pyRStrip l] hn (by simp),
          show joinCh '\n' [pyRStrip l] = pyRStrip l from rfl]
        have hr : pyRStrip ('\n' :: l) = '\n' :: pyRStrip l := by
          have h2 := pyRStrip_append ['\n'] l
          rw [if_neg h] at h2
          simpa using h2
        rw [hr]

theorem mem_rstripLinesRev (xs : List (List Char)) :
    ∀ m ∈ rstripLinesRev xs, ∃ l ∈ xs, m = l ∨ m = pyRStrip l := by
  induction xs with
  | nil => intro m hm; simp [rstripLinesRev] at hm
  | cons l rest ih =>
    intro m hm
    rw [rstripLinesRev] at hm
    by_cases h : allWs l
    · rw [if_pos h] at hm
      obtain ⟨x, hx, hmx⟩ := ih m hm
      exact ⟨x, List.mem_cons_of_mem l hx, hmx⟩
    · rw [if_neg h] at hm
      rcases List.mem_cons.mp hm with rfl | hm'
      · exact ⟨l, List.mem_cons_self l rest, Or.inr rfl⟩
      · exact ⟨m, List.mem_cons_of_mem l hm', Or.inl rfl⟩

theorem mem_rstripLines (ls : List (List Char)) :
    ∀ m ∈ rstripLines ls, ∃ l ∈ ls, m = l ∨ m = pyRStrip l := by
  intro m hm
  rw [rstripLines, List.mem_reverse] at hm
  obtain ⟨x, hx, hmx⟩ := mem_rstripLinesRev ls.reverse m hm
  exact ⟨x, List.mem_reverse.mp hx, hmx⟩

theorem lstrip_join_tail (ms : List (List Char)) (h : ∀ m ∈ ms, '\n' ∉ m) :
    ∀ line ∈ (splitCh '\n' (pyLStrip (joinCh '\n' ms))).tail, line ∈ ms := by
  induction ms with
  | nil => intro line hl; simp [joinCh, pyLStrip, splitCh] at hl
  | cons m rest ih =>
    intro line hl
    cases rest with
    | nil =>
      have hnm : '\n' ∉ pyLStrip m :=
        fun hc => h m (List.mem_cons_self m []) ((List.dropWhile_suffix _).subset hc)
      rw [show joinCh '\n' [m] = m from rfl, splitCh_of_not_mem hnm] at hl
      simp at hl
    | cons m2 rest' =>
      rw [joinCh_cons₂, pyLStrip_append] at hl
      by_cases hws : allWs m
      · rw [if_pos hws] at hl
        have : pyLStrip ('\n' :: joinCh '\n' (m2 :: rest')) =
            pyLStrip (joinCh '\n' (m2 :: rest')) := by
          rw [pyLStrip, List.dropWhile_cons_of_pos (by simp [pyIsSpace])]
          rfl
        rw [this] at hl
        exact List.mem_cons_of_mem m
          (ih (fun x hx => h x (List.mem_cons_of_mem m hx)) line hl)
      · rw [if_neg hws] at hl
        have hnm : '\n' ∉ pyLStrip m :=
          fun hc => h m (List.mem_cons_self m _) ((List.dropWhile_suffix _).subset hc)
        rw [splitCh_append_cons, splitCh_of_not_mem hnm] at hl
        rw [List.singleton_append, List.tail_cons] at hl
        rw [splitCh_joinCh (fun x hx => h x (List.mem_cons_of_mem m hx)) (by simp)] at hl
        exact List.mem_cons_of_mem m hl

theorem tail_lines_finishBody (cc : List (List Char)) (h : ∀ l ∈ cc, '\n' ∉ l) :
    ∀ line ∈ (splitCh '\n' (finishBody cc)).tail,
      ∃ l ∈ cc, line = l ∨ line = pyRStrip l := by
  rw [finishBody, pyStrip, pyRStrip_joinCh]
  intro line hline
  have h2 : ∀ m ∈ rstripLines cc, '\n' ∉ m := by
    intro m hm
    obtain ⟨x, hx, hmx⟩ := mem_rstripLines cc m hm
    rcases hmx with h1 | h1
    · rw [h1]
      exact h x hx
    · rw [h1]
      exact fun hc => h x hx ((pyRStrip_prefix_self x).subset hc)
  have hmem := lstrip_join_tail (rstripLines cc) h2 line hline
  exact mem_rstripLines cc line hmem

theorem rawHeaderTest_iff (l : List Char) :
    rawHeaderTest l = true ↔
      ((str "#### **") <+: l ∧ (str "Pattern") <:+: l) := by
  rw [rawHeaderTest, Bool.and_eq_true, List.isPrefixOf_iff_prefix, occurs_iff]

theorem prefix_drop_ws (ch : Char) {p r t : List Char} (hpl : p <+: r ++ t)
    (ht : allWs t = true) (hlast : p.getLast? = some ch)
    (hch : pyIsSpace ch = false) : p <+: r := by
  rcases List.prefix_or_prefix_of_prefix hpl (List.prefix_append r t) with h | h
  · exact h
  · obtain ⟨d, rfl⟩ := h
    cases hd : d with
    | nil => simp [hd]
    | cons e es =>
      exfalso
      have hdt : d <+: t := by
        rw [List.prefix_append_right_inj] at hpl
        exact hpl
      have hdne : d ≠ [] := by rw [hd]; simp
      have hld : (r ++ d).getLast? = d.getLast? := by
        rw [List.getLast?_append]
        exact Option.or_of_isSome (List.getLast?_isSome.mpr hdne)
      rw [hld] at hlast
      have hgl : d.getLast hdne = ch := by
        rw [List.getLast?_eq_getLast d hdne] at hlast
        exact Option.some.inj hlast
      have hmem : d.getLast hdne ∈ t := hdt.subset (List.getLast_mem hdne)
      have hws := allWs_iff.mp ht _ hmem
      rw [hgl, hch] at hws
      exact absurd hws (by simp)

theorem prefix_pyRStrip (ch : Char) {p l : List Char} (hp : p <+: l)
    (hlast : p.getLast? = some ch) (hch : pyIsSpace ch = false) :
    p <+: pyRStrip l := by
  obtain ⟨t, hdec, ht⟩ := pyRStrip_decomp l
  rw [hdec] at hp
  exact prefix_drop_ws ch hp ht hlast hch

theorem infix_pyRStrip (ch : Char) {p l : List Char} (hp : p <:+: l)
    (hlast : p.getLast? = some ch) (hch : pyIsSpace ch = false) :
    p <:+: pyRStrip l := by
  obtain ⟨a, b, hab⟩ := hp
  have hpre : a ++ p <+: l := ⟨b, hab⟩
  have hlast' : (a ++ p).getLast? = some ch := by
    rw [List.getLast?_append, hlast]
    rfl
  obtain ⟨b', hb'⟩ := prefix_pyRStrip ch hpre hlast' hch
  exact ⟨a, b', hb'⟩

theorem middle_of_initial {l₁ l₂ : List Char} (h : l₁ <+: l₂) : l₁ <:+: l₂ := by
  obtain ⟨t, ht⟩ := h
  exact ⟨[], t, by simpa using ht⟩

theorem not_header_pyRStrip {l : List Char} (h : rawHeaderTest l = false) :
    rawHeaderTest (pyRStrip l) = false := by
  by_contra hc
  rw [Bool.not_eq_false, rawHeaderTest_iff] at hc
  rw [← Bool.not_eq_true, rawHeaderTest_iff] at h
  exact h ⟨hc.1.trans (pyRStrip_prefix_self l),
    hc.2.trans (middle_of_initial (pyRStrip_prefix_self l))⟩

theorem strip_preserves_header {l : List Char} (h : rawHeaderTest l = true) :
    (str "#### **") <+: pyStrip l ∧ (str "Pattern") <:+: pyStrip l := by
  rw [rawHeaderTest_iff] at h
  have hpre : (str "#### **") <+: pyRStrip l :=
    prefix_pyRStrip '*' h.1 (by decide) (by decide)
  have hinf : (str "Pattern") <:+: pyRStrip l :=
    infix_pyRStrip 'n' h.2 (by decide) (by decide)
  have hhead : pyStrip l = pyRStrip l := by
    rw [pyStrip]
    obtain ⟨m, hm⟩ := hpre
    rw [← hm, show str "#### **" = '#' :: str "### **" from by decide,
      List.cons_append]
    exact pyLStrip_of_head_not_ws (by decide)
  rw [hhead]
  exact ⟨hpre, hinf⟩

theorem mem_dictInsert {k v : List Char} {d : List (List Char × List Char)} :
    ∀ kv ∈ dictInsert k v d, kv = (k, v) ∨ kv ∈ d := by
  intro kv h
  rw [dictInsert] at h
  by_cases hc : d.any (fun e => e.1 = k)
  · rw [if_pos hc, List.mem_map] at h
    obtain ⟨e, he, heq⟩ := h
    by_cases hek : e.1 = k
    · rw [if_pos hek] at heq
      exact Or.inl heq.symm
    · rw [if_neg hek] at heq
      exact Or.inr (heq ▸ he)
  · rw [if_neg hc, List.mem_append] at h
    rcases h with h | h
    · exact Or.inr h
    · simp at h
      exact Or.inl h

theorem finishBody_inv {L : List (List Char)} (hL : ∀ l ∈ L, '\n' ∉ l)
    {cc : List (List Char)} (hcc : ∀ l ∈ cc, rawHeaderTest l = false ∧ l ∈ L) :
    ∀ line ∈ (splitCh '\n' (finishBody cc)).tail, rawHeaderTest line = false := by
  intro line hline
  obtain ⟨l, hl, hll⟩ := tail_lines_finishBody cc
    (fun l hl => hL l (hcc l hl).2) line hline
  rcases hll with h1 | h1
  · rw [h1]
    exact (hcc l hl).1
  · rw [h1]
    exact not_header_pyRStrip (hcc l hl).1

theorem extractLoop_invariant (L : List (List Char)) (hL : ∀ l ∈ L, '\n' ∉ l) :
    ∀ lines cs cc secs,
      (∀ l ∈ lines, l ∈ L) →
      (cs = [] ∨ ∃ l ∈ L, rawHeaderTest l = true ∧ cs = pyStrip l) →
      (∀ l ∈ cc, rawHeaderTest l = false ∧ l ∈ L) →
      (∀ kv ∈ secs, sectionInv L kv) →
      ∀ kv ∈ extractLoop lines cs cc secs, sectionInv L kv := by
  intro lines
  induction lines with
  | nil =>
    intro cs cc secs _ hcs hcc hsecs kv hkv
    rw [extractLoop] at hkv
    by_cases he : cs.isEmpty
    · rw [if_pos he] at hkv
      exact hsecs kv hkv
    · rw [if_neg he] at hkv
      rcases mem_dictInsert kv hkv with rfl | hkv'
      · rcases hcs with hcs | hcs
        · rw [hcs] at he
          simp at he
        · exact ⟨hcs, finishBody_inv hL hcc⟩
      · exact hsecs kv hkv'
  | cons line rest ih =>
    intro cs cc secs hlines hcs hcc hsecs kv hkv
    rw [extractLoop] at hkv
    by_cases ht : rawHeaderTest line
    · rw [if_pos ht] at hkv
      refine ih _ [] _ (fun l hl => hlines l (List.mem_cons_of_mem line hl))
        (Or.inr ⟨line, hlines line (List.mem_cons_self line rest), ht, rfl⟩)
        (by simp) ?_ kv hkv
      by_cases he : cs.isEmpty
      · rw [if_pos he]
        exact hsecs
      · rw [if_neg he]
        intro kv' hkv'
        rcases mem_dictInsert kv' hkv' with rfl | hkv''
        · rcases hcs with hcs | hcs
          · rw [hcs] at he
            simp at he
          · exact ⟨hcs, finishBody_inv hL hcc⟩
        · exact hsecs kv' hkv''
    · rw [if_neg ht] at hkv
      by_cases he : cs.isEmpty
      · rw [if_pos he] at hkv
        exact ih _ _ _ (fun l hl => hlines l (List.mem_cons_of_mem line hl))
          hcs hcc hsecs kv hkv
      · rw [if_neg he] at hkv
        refine ih _ _ _ (fun l hl => hlines l (List.mem_cons_of_mem line hl))
          hcs ?_ hsecs kv hkv
        intro l hl
        rcases List.mem_append.mp hl with hl' | hl'
        · exact hcc l hl'
        · rw [List.mem_singleton] at hl'
          rw [hl']
          exact ⟨by simpa using ht, hlines line (List.mem_cons_self line rest)⟩

/-- C10, counterexample to "no line of any value itself starts with
`#### **` and contains `Pattern`": on `exC10` the extractor stores a body
whose first line is `#### **B Pattern**`. -/
theorem extract_body_header_counterexample :
    extract_algorithm_content exC10 =
      [(str "#### **A Pattern**", str "#### **B Pattern**\nrest")] ∧
    str "#### **B Pattern**" ∈
      splitCh '\n' (str "#### **B Pattern**\nrest") ∧
    (str "#### **") <+: str "#### **B Pattern**" ∧
    (str "Pattern") <:+: str "#### **B Pattern**" := by decide

/-- C10 (amended). Every key of the extractor's mapping is the strip of an
input line at or after the anchor heading that starts with `#### **` and
contains `Pattern` (and the key itself still starts with `#### **` and
contains `Pattern`); and no line of any value other than the value's first
line both starts with `#### **` and contains `Pattern`. -/
theorem extract_section_structure (content : List Char) :
    ∀ kv ∈ extract_algorithm_content content,
      ((str "#### **") <+: kv.1 ∧ (str "Pattern") <:+: kv.1 ∧
        ∃ line ∈ guideLines content,
          rawHeaderTest line = true ∧ kv.1 = pyStrip line) ∧
      ∀ line ∈ (splitCh '\n' kv.2).tail,
        ¬((str "#### **") <+: line ∧ (str "Pattern") <:+: line) := by
  intro kv hkv
  rw [extract_algorithm_content] at hkv
  cases hs : splitFirst anchorHeading content with
  | none =>
    rw [hs] at hkv
    simp at hkv
  | some pr =>
    obtain ⟨pre, post⟩ := pr
    rw [hs] at hkv
    have hL : ∀ l ∈ splitCh '\n' (anchorHeading ++ post), '\n' ∉ l :=
      mem_splitCh_not_mem '\n' (anchorHeading ++ post)
    have hinv := extractLoop_invariant (splitCh '\n' (anchorHeading ++ post)) hL
      (splitCh '\n' (anchorHeading ++ post)) [] [] [] (fun l hl => hl)
      (Or.inl rfl) (by simp) (by simp) kv hkv
    obtain ⟨⟨line, hline, htest, hkey⟩, hbody⟩ := hinv
    have hgl : guideLines content = splitCh '\n' (anchorHeading ++ post) := by
      rw [guideLines, hs]
    refine ⟨⟨?_, ?_, ⟨line, hgl ▸ hline, htest, hkey⟩⟩, ?_⟩
    · rw [hkey]
      exact (strip_preserves_header htest).1
    · rw [hkey]
      exact (strip_preserves_header htest).2
    · intro l hl hcontra
      have := hbody l hl
      rw [← Bool.not_eq_true, rawHeaderTest_iff] at this
      exact this hcontra

/-- Witness for C10 (amended) at a concrete extracted section. -/
theorem extract_section_structure_witness :
    (str "#### **") <+: str "#### **A Pattern**" ∧
    ∀ line ∈ (splitCh '\n' (str "rest")).tail,
      ¬((str "#### **") <+: line ∧ (str "Pattern") <:+: line) :=
  ⟨((extract_section_structure exC10
      (str "#### **A Pattern**", str "#### **B Pattern**\nrest") (by decide)).1).1,
   fun line hl => ((extract_section_structure
      (str "## Algorithm Problem Identification Guide\n#### **A Pattern**\nrest")
      (str "#### **A Pattern**", str "rest") (by decide)).2) line hl⟩

end StudyGuide
